import Mathlib

/-!
Verification development for the wink-wysiwyg rich-text editor core.

The definitions below are a shallow embedding of the repository's
mention/hashtag token scanner, the mark reconciler, the suggestion
controllers and the plugin manager, translated from:

  * src/components/WInkEditor.tsx   (token scan + mark reconciliation in
    `EditorImpl.onUpdate`, and the `MentionSuggestions` overlay)
  * src/hooks/useMentions.ts        (`useMentions` / `useHashtags`)
  * src/utils/plugins.ts            (`createPluginManager`)

Stateful JavaScript is modelled by explicit state passing; the mutable
`abortControllerRef` / `AbortController` pair is modelled by controller
identifiers together with the set of aborted identifiers; ProseMirror's
`tr.removeMark` / `tr.addMark` step generation is modelled on a vector of
per-character marks.
-/

namespace WInk

/-! ## Token scanner

The source scans the current paragraph with the JavaScript regex

  `/@([A-Za-z0-9_.-]*[A-Za-z0-9_-])(?![A-Za-z0-9_-])/g`

(`#` in place of `@` for hashtags) in an `exec` loop
(WInkEditor.tsx lines 229-248 and 264-283).  The functions below model
that loop operationally: at a trigger character the greedy star takes the
maximal run of characters from `[A-Za-z0-9_.-]`; backtracking then forces
the capture to end on a character from `[A-Za-z0-9_-]`, which amounts to
stripping the run's trailing dots; the negative lookahead holds
automatically at that point.  `lastIndex` advances to the end of each
match, so scanning resumes right after a token.
-/

/-- Character class `[A-Za-z0-9_.-]` of the capture group's star. -/
def isIdentChar (c : Char) : Bool :=
  c.isAlpha || c.isDigit || c == '_' || c == '.' || c == '-'

/-- Character class `[A-Za-z0-9_-]` used for the capture's final character
and for the negative lookahead. -/
def isIdentTailChar (c : Char) : Bool :=
  c.isAlpha || c.isDigit || c == '_' || c == '-'

/-- A scanner match: `start` is `match.index`, `stop` is
`match.index + match[0].length` (half-open range, includes the trigger
character), `identifier` is the captured group `match[1]`. -/
structure Token where
  start : Nat
  stop : Nat
  identifier : String
deriving DecidableEq, Repr

/-- Remove the trailing run of dots of a character list. -/
def stripTrailingDots (l : List Char) : List Char :=
  (l.reverse.dropWhile (fun c => c == '.')).reverse

/-- The capture the regex produces right after a trigger character:
the maximal run of `[A-Za-z0-9_.-]` characters with its trailing dots
stripped by backtracking.  The regex matches at the trigger iff this is
non-empty. -/
def identCapture (cs : List Char) : List Char :=
  stripTrailingDots (cs.takeWhile isIdentChar)

/-- One step of the `regex.exec` loop.  `fuel` only forces termination:
every recursive call consumes at least one character, so `fuel`
at least the length of the text gives the loop's exact behaviour. -/
def scanGo (trigger : Char) : Nat → Nat → List Char → List Token
  | 0, _, _ => []
  | _ + 1, _, [] => []
  | fuel + 1, i, c :: rest =>
    if c == trigger then
      if (identCapture rest).isEmpty then
        scanGo trigger fuel (i + 1) rest
      else
        { start := i, stop := i + 1 + (identCapture rest).length,
          identifier := String.mk (identCapture rest) } ::
          scanGo trigger fuel (i + 1 + (identCapture rest).length)
            (rest.drop (identCapture rest).length)
    else
      scanGo trigger fuel (i + 1) rest

/-- The scanner: ordered token matches of the highlighting regex over a
paragraph's text, as produced by the `while ((match = regex.exec(text)))`
loop in `EditorImpl.onUpdate`. -/
def scan (text : String) (trigger : Char) : List Token :=
  scanGo trigger text.toList.length 0 text.toList

example : scan "hello @alice how are you" '@' =
    [{ start := 6, stop := 12, identifier := "alice" }] := by decide

example : scan "@bob @carol" '@' =
    [{ start := 0, stop := 4, identifier := "bob" },
     { start := 5, stop := 11, identifier := "carol" }] := by decide

example : scan "x@" '@' = [] := by decide

example : scan "@@bob" '@' = [{ start := 1, stop := 5, identifier := "bob" }] := by decide

example : scan "@a.." '@' = [{ start := 0, stop := 2, identifier := "a" }] := by decide

example : scan "@a-" '@' = [{ start := 0, stop := 3, identifier := "a-" }] := by decide

/-! ### Scanner lemmas -/

theorem head?_dropWhile_not {α : Type} (p : α → Bool) :
    ∀ (l : List α) (a : α), (l.dropWhile p).head? = some a → p a = false := by
  intro l
  induction l with
  | nil => intro a h; simp [List.dropWhile] at h
  | cons x xs ih =>
    intro a h
    by_cases hp : p x = true
    · rw [List.dropWhile_cons, if_pos hp] at h
      exact ih a h
    · rw [List.dropWhile_cons, if_neg hp] at h
      have hx : x = a := by simpa using h
      subst hx
      simpa using hp

theorem isIdentTailChar_imp (c : Char) (h : isIdentTailChar c = true) :
    isIdentChar c = true := by
  simp only [isIdentChar, isIdentTailChar, Bool.or_eq_true] at *
  tauto

theorem stripTrailingDots_isPrefixOf (l : List Char) : stripTrailingDots l <+: l := by
  unfold stripTrailingDots
  conv_rhs => rw [← l.reverse_reverse]
  exact List.reverse_prefix.mpr (List.dropWhile_suffix _)

theorem stripTrailingDots_getLast? (l : List Char) (c : Char)
    (h : (stripTrailingDots l).getLast? = some c) : c ≠ '.' := by
  unfold stripTrailingDots at h
  rw [List.getLast?_eq_head?_reverse, List.reverse_reverse] at h
  have := head?_dropWhile_not (fun c => c == '.') l.reverse c h
  simpa using this

theorem stripTrailingDots_decomp (l : List Char) :
    ∃ dots, l = stripTrailingDots l ++ dots ∧ ∀ c ∈ dots, c = '.' := by
  refine ⟨(l.reverse.takeWhile (fun c => c == '.')).reverse, ?_, ?_⟩
  · conv_lhs => rw [← l.reverse_reverse,
      ← List.takeWhile_append_dropWhile (fun c => c == '.') l.reverse]
    rw [List.reverse_append]
    rfl
  · intro c hc
    rw [List.mem_reverse] at hc
    simpa using List.mem_takeWhile_imp hc

theorem identCapture_length_le (cs : List Char) : (identCapture cs).length ≤ cs.length :=
  le_trans (stripTrailingDots_isPrefixOf _).length_le (List.takeWhile_prefix _).length_le

theorem identCapture_mem (cs : List Char) (c : Char) (h : c ∈ identCapture cs) :
    isIdentChar c = true := by
  have hsub := (stripTrailingDots_isPrefixOf (cs.takeWhile isIdentChar)).subset
  exact List.mem_takeWhile_imp (hsub h)

theorem identCapture_getLast? (cs : List Char) (c : Char)
    (h : (identCapture cs).getLast? = some c) : c ≠ '.' :=
  stripTrailingDots_getLast? _ c h

theorem identCapture_next (cs : List Char) (c : Char)
    (h : cs[(identCapture cs).length]? = some c) : isIdentTailChar c = false := by
  obtain ⟨dots, hdec, hdots⟩ := stripTrailingDots_decomp (cs.takeWhile isIdentChar)
  rcases dots with _ | ⟨d, dots'⟩
  · -- the capture is the whole maximal run; the next character fails `isIdentChar`
    rw [List.append_nil] at hdec
    have hlen : (identCapture cs).length = (cs.takeWhile isIdentChar).length := by
      unfold identCapture; rw [← hdec]
    rw [hlen] at h
    have hident : isIdentChar c = false := by
      clear hdec hlen hdots
      induction cs with
      | nil => simp at h
      | cons x xs ih =>
        rw [List.takeWhile_cons] at h
        by_cases hx : isIdentChar x = true
        · simp [hx] at h
          exact ih h
        · simp [hx] at h
          rw [← h]
          simpa using hx
    cases hct : isIdentTailChar c
    · rfl
    · exfalso
      rw [isIdentTailChar_imp c hct] at hident
      cases hident
  · -- the capture stops before a trailing dot
    have hpre : identCapture cs <+: cs :=
      (stripTrailingDots_isPrefixOf _).trans (List.takeWhile_prefix _)
    have hd : d = '.' := hdots d (by simp)
    have hlt : (identCapture cs).length < cs.length := by
      have h1 : (cs.takeWhile isIdentChar).length =
          (identCapture cs).length + (d :: dots').length := by
        conv_lhs => rw [hdec]
        simp [identCapture]
      have h2 := (List.takeWhile_prefix (l := cs) isIdentChar).length_le
      simp only [List.length_cons] at h1
      omega
    -- the character right after the capture inside the maximal run is that dot
    have hc : cs[(identCapture cs).length]? = some d := by
      have htake : (cs.takeWhile isIdentChar)[(identCapture cs).length]? = some d := by
        conv_lhs => rw [hdec]
        rw [List.getElem?_append_right (by simp [identCapture])]
        simp [identCapture]
      have hpre2 : cs.takeWhile isIdentChar <+: cs := List.takeWhile_prefix _
      obtain ⟨tail, htail⟩ := hpre2
      have hlen2 : (identCapture cs).length < (cs.takeWhile isIdentChar).length := by
        have h1 : (cs.takeWhile isIdentChar).length =
            (identCapture cs).length + (d :: dots').length := by
          conv_lhs => rw [hdec]
          simp [identCapture]
        simp only [List.length_cons] at h1
        omega
      calc cs[(identCapture cs).length]?
          = (List.takeWhile isIdentChar cs ++ tail)[(identCapture cs).length]? := by
            rw [htail]
        _ = (List.takeWhile isIdentChar cs)[(identCapture cs).length]? :=
            List.getElem?_append_left hlen2
        _ = some d := htake
    rw [h] at hc
    cases hc
    rw [hd]
    rfl

theorem identCapture_pos_of_not_isEmpty (cs : List Char)
    (h : ¬ (identCapture cs).isEmpty = true) : 0 < (identCapture cs).length := by
  cases hc : identCapture cs with
  | nil => exact absurd (by rw [hc]; rfl) h
  | cons a l => simp

theorem scanGo_mem_bounds (trigger : Char) :
    ∀ (fuel i : Nat) (cs : List Char), ∀ t ∈ scanGo trigger fuel i cs,
      i ≤ t.start ∧ t.start + 2 ≤ t.stop ∧ t.stop ≤ i + cs.length := by
  intro fuel
  induction fuel with
  | zero => intro i cs t ht; simp [scanGo] at ht
  | succ n ih =>
    intro i cs t ht
    cases cs with
    | nil => simp [scanGo] at ht
    | cons c rest =>
      rw [scanGo] at ht
      split at ht
      · split at ht
        · have := ih (i + 1) rest t ht
          simp only [List.length_cons]
          omega
        · rename_i hcap
          have hpos := identCapture_pos_of_not_isEmpty rest hcap
          have hle := identCapture_length_le rest
          rcases List.mem_cons.mp ht with rfl | hmem
          · refine ⟨le_refl _, ?_, ?_⟩ <;> simp <;> omega
          · have := ih (i + 1 + (identCapture rest).length)
              (rest.drop (identCapture rest).length) t hmem
            rw [List.length_drop] at this
            simp only [List.length_cons]
            omega
      · have := ih (i + 1) rest t ht
        simp only [List.length_cons]
        omega

theorem scanGo_pairwise (trigger : Char) :
    ∀ (fuel i : Nat) (cs : List Char),
      (scanGo trigger fuel i cs).Pairwise
        (fun a b => a.stop ≤ b.start ∧ a.start < b.start) := by
  intro fuel
  induction fuel with
  | zero => intro i cs; simp [scanGo]
  | succ n ih =>
    intro i cs
    cases cs with
    | nil => simp [scanGo]
    | cons c rest =>
      rw [scanGo]
      split
      · split
        · exact ih (i + 1) rest
        · rw [List.pairwise_cons]
          refine ⟨?_, ih _ _⟩
          intro b hb
          have hbb := scanGo_mem_bounds trigger n (i + 1 + (identCapture rest).length)
            (rest.drop (identCapture rest).length) b hb
          refine ⟨?_, ?_⟩ <;> simp <;> omega
      · exact ih (i + 1) rest

theorem scanGo_ident (trigger : Char) :
    ∀ (fuel i : Nat) (cs : List Char), ∀ t ∈ scanGo trigger fuel i cs,
      t.identifier.toList ≠ [] ∧
      (∀ c ∈ t.identifier.toList, isIdentChar c = true) ∧
      (∀ c, t.identifier.toList.getLast? = some c → c ≠ '.') ∧
      t.stop = t.start + 1 + t.identifier.toList.length ∧
      (∀ c, cs[t.stop - i]? = some c → isIdentTailChar c = false) := by
  intro fuel
  induction fuel with
  | zero => intro i cs t ht; simp [scanGo] at ht
  | succ n ih =>
    intro i cs t ht
    cases cs with
    | nil => simp [scanGo] at ht
    | cons c rest =>
      rw [scanGo] at ht
      split at ht
      · split at ht
        · -- no match at this trigger: the loop moves on one character
          have hrec := ih (i + 1) rest t ht
          have hb2 := scanGo_mem_bounds trigger n (i + 1) rest t ht
          refine ⟨hrec.1, hrec.2.1, hrec.2.2.1, hrec.2.2.2.1, ?_⟩
          intro ch hch
          apply hrec.2.2.2.2 ch
          have hidx : t.stop - i = (t.stop - (i + 1)) + 1 := by omega
          rw [hidx, List.getElem?_cons_succ] at hch
          exact hch
        · rename_i hcap
          rcases List.mem_cons.mp ht with rfl | hmem
          · refine ⟨?_, ?_, ?_, ?_, ?_⟩
            · simpa using fun h => hcap (by rw [show identCapture rest = [] from h]; rfl)
            · intro ch hch
              exact identCapture_mem rest ch (by simpa using hch)
            · intro ch hch
              exact identCapture_getLast? rest ch (by simpa using hch)
            · simp
            · intro ch hch
              apply identCapture_next rest ch
              have hch2 : (c :: rest)[(identCapture rest).length + 1]? = some ch := by
                have hidx : i + 1 + (identCapture rest).length - i
                    = (identCapture rest).length + 1 := by omega
                calc (c :: rest)[(identCapture rest).length + 1]?
                    = (c :: rest)[i + 1 + (identCapture rest).length - i]? := by rw [hidx]
                  _ = some ch := hch
              rw [List.getElem?_cons_succ] at hch2
              exact hch2
          · have hrec := ih (i + 1 + (identCapture rest).length)
              (rest.drop (identCapture rest).length) t hmem
            have hb2 := scanGo_mem_bounds trigger n (i + 1 + (identCapture rest).length)
              (rest.drop (identCapture rest).length) t hmem
            refine ⟨hrec.1, hrec.2.1, hrec.2.2.1, hrec.2.2.2.1, ?_⟩
            intro ch hch
            apply hrec.2.2.2.2 ch
            have hidx : t.stop - i =
                ((t.stop - (i + 1 + (identCapture rest).length)) +
                  (identCapture rest).length) + 1 := by omega
            rw [hidx, List.getElem?_cons_succ] at hch
            rw [List.getElem?_drop, Nat.add_comm]
            exact hch
      · have hrec := ih (i + 1) rest t ht
        have hb2 := scanGo_mem_bounds trigger n (i + 1) rest t ht
        refine ⟨hrec.1, hrec.2.1, hrec.2.2.1, hrec.2.2.2.1, ?_⟩
        intro ch hch
        apply hrec.2.2.2.2 ch
        have hidx : t.stop - i = (t.stop - (i + 1)) + 1 := by omega
        rw [hidx, List.getElem?_cons_succ] at hch
        exact hch

/-! ### Scanner claim theorems -/

/-- C5: for every text string and trigger character, the scanner's tokens
have pairwise non-overlapping half-open ranges `[start, stop)`, sorted by
`start` in strictly ascending order, and every range is non-degenerate. -/
theorem scan_tokens_ordered (text : String) (trigger : Char) :
    (scan text trigger).Pairwise (fun a b => a.stop ≤ b.start ∧ a.start < b.start) ∧
    ∀ t ∈ scan text trigger, t.start < t.stop := by
  refine ⟨scanGo_pairwise trigger _ 0 text.toList, ?_⟩
  intro t ht
  have := scanGo_mem_bounds trigger text.toList.length 0 text.toList t ht
  omega

/-- Witness for C5 at the spec's own example `"@bob @carol"`. -/
theorem scan_tokens_ordered_witness :
    (scan "@bob @carol" '@').Pairwise (fun a b => a.stop ≤ b.start ∧ a.start < b.start) ∧
    ({ start := 0, stop := 4, identifier := "bob" } : Token).start <
      ({ start := 0, stop := 4, identifier := "bob" } : Token).stop :=
  ⟨(scan_tokens_ordered "@bob @carol" '@').1,
   (scan_tokens_ordered "@bob @carol" '@').2
     { start := 0, stop := 4, identifier := "bob" } (by decide)⟩

/-- C2 counterexample: on input `"@a-"` the scanner produces a token whose
identifier `"a-"` ends in `'-'`, so the claim that an identifier's last
character is neither `'.'` nor `'-'` is false as stated (the regex's final
character class `[A-Za-z0-9_-]` excludes only the dot). -/
theorem scan_trailing_dash_counterexample :
    ¬ (∀ t ∈ scan "@a-" '@', ∀ c, t.identifier.toList.getLast? = some c →
        c ≠ '.' ∧ c ≠ '-') := by
  decide

/-- C2 (amended): every token the scanner produces has a non-empty
identifier of characters from `[A-Za-z0-9_.-]` whose last character is not
`'.'` (it may be `'-'` or `'_'`); the token is not immediately followed by
a character from `[A-Za-z0-9_-]` (a following `'.'` is possible); and the
token fits inside the text with at least one identifier character after
the trigger, so a trigger character at the very end of the text yields no
token. -/
theorem scan_identifier_shape (text : String) (trigger : Char) :
    ∀ t ∈ scan text trigger,
      t.identifier.toList ≠ [] ∧
      (∀ c ∈ t.identifier.toList, isIdentChar c = true) ∧
      (∀ c, t.identifier.toList.getLast? = some c → c ≠ '.') ∧
      (∀ c, text.toList[t.stop]? = some c → isIdentTailChar c = false) ∧
      t.stop = t.start + 1 + t.identifier.toList.length ∧
      t.start + 2 ≤ t.stop ∧ t.stop ≤ text.toList.length := by
  intro t ht
  have hident := scanGo_ident trigger text.toList.length 0 text.toList t ht
  have hbounds := scanGo_mem_bounds trigger text.toList.length 0 text.toList t ht
  refine ⟨hident.1, hident.2.1, hident.2.2.1, ?_, hident.2.2.2.1, by omega, by omega⟩
  intro c hc
  apply hident.2.2.2.2 c
  simpa using hc

/-- Witness for C2's amended theorem at `"hey @jo."`: the token is
`@jo` with identifier `"jo"`, followed by a dot, which the lookahead
class permits. -/
theorem scan_identifier_shape_witness :
    ({ start := 4, stop := 7, identifier := "jo" } : Token).identifier.toList ≠ [] ∧
    (∀ c, ({ start := 4, stop := 7, identifier := "jo" } : Token).identifier.toList.getLast?
      = some c → c ≠ '.') := by
  have h := scan_identifier_shape "hey @jo." '@'
    { start := 4, stop := 7, identifier := "jo" } (by decide)
  exact ⟨h.1, h.2.2.1⟩

/-! ## Mark reconciler

`EditorImpl.onUpdate` reconciles highlight marks over the caret's
paragraph (WInkEditor.tsx lines 220-288): it builds one transaction that
first clears every mark of the kind over the whole paragraph
(`tr.removeMark(startPos, startPos + text.length, type)`) and then adds
one mark per scanned token
(`tr.addMark(from, to, type.create({...handle}))`), and dispatches it only
when `tr.steps.length > 0`.

The document engine is modelled at the granularity the claims need: a
paragraph is a vector with one entry per character holding the mark of
the kind covering that character (`none`, or `some attrs` where `attrs`
is the varying attribute, the captured handle/tag).  ProseMirror's
`Transform.removeMark` emits one `RemoveMarkStep` per maximal run of
positions carrying an equal mark inside the range, and `Transform.addMark`
emits one `AddMarkStep` per maximal run of positions inside the range not
already carrying the mark.  Positions are paragraph-relative (the source
offsets everything by the constant `startPos`).
-/

/-- Per-character mark state of a paragraph, for one mark kind. -/
abbrev MarkVec := List (Option String)

/-- A mark step of the reconciliation transaction. -/
inductive MarkStep where
  | removeMark (start stop : Nat) (attrs : String)
  | addMark (start stop : Nat) (attrs : String)
deriving DecidableEq, Repr

/-- Maximal runs of equal present marks, as `(start, stop, attrs)`
triples; `cur` carries the run being accumulated. -/
def markRunsGo : Nat → Option (Nat × String) → MarkVec → List (Nat × Nat × String)
  | i, cur, [] =>
    match cur with
    | some (s0, a) => [(s0, i, a)]
    | none => []
  | i, cur, none :: rest =>
    (match cur with
     | some (s0, a) => [(s0, i, a)]
     | none => []) ++ markRunsGo (i + 1) none rest
  | i, cur, some a :: rest =>
    match cur with
    | some (s0, b) =>
      if b = a then markRunsGo (i + 1) (some (s0, b)) rest
      else (s0, i, b) :: markRunsGo (i + 1) (some (i, a)) rest
    | none => markRunsGo (i + 1) (some (i, a)) rest

/-- Maximal runs of positions (offset by `i`) whose entry differs from
`some attrs`, as `(start, stop)` pairs: the ranges where `addMark` must
actually add the mark. -/
def gapRunsGo (attrs : String) : Nat → Option Nat → MarkVec → List (Nat × Nat)
  | i, cur, [] =>
    match cur with
    | some s0 => [(s0, i)]
    | none => []
  | i, cur, x :: rest =>
    if x = some attrs then
      (match cur with
       | some s0 => [(s0, i)]
       | none => []) ++ gapRunsGo attrs (i + 1) none rest
    else
      match cur with
      | some s0 => gapRunsGo attrs (i + 1) (some s0) rest
      | none => gapRunsGo attrs (i + 1) (some i) rest

/-- Set the mark entries of positions in `[s, e)` to `v`. -/
def setRange (s e : Nat) (v : Option String) (m : MarkVec) : MarkVec :=
  m.mapIdx (fun i x => if s ≤ i ∧ i < e then v else x)

/-- The steps `tr.removeMark(0, len, type)` generates on `m`
(one `RemoveMarkStep` per maximal run of an equal present mark). -/
def removeMarkSteps (len : Nat) (m : MarkVec) : List MarkStep :=
  (markRunsGo 0 none (m.take len)).map (fun r => MarkStep.removeMark r.1 r.2.1 r.2.2)

/-- The steps `tr.addMark(s, e, type.create(attrs))` generates on `m`
(one `AddMarkStep` per maximal run of positions in `[s, e)` not already
carrying the mark). -/
def addMarkSteps (s e : Nat) (attrs : String) (m : MarkVec) : List MarkStep :=
  (gapRunsGo attrs s none ((m.drop s).take (e - s))).map
    (fun r => MarkStep.addMark r.1 r.2 attrs)

/-- The reconciliation transaction of `EditorImpl.onUpdate` for one
trigger kind over the caret's paragraph: clear all marks of the kind,
then add one mark per scanned token (attrs = the captured identifier).
Returns the transaction's steps and the mark state of the transaction's
resulting document. -/
def reconcile (trigger : Char) (text : String) (marks : MarkVec) :
    List MarkStep × MarkVec :=
  let len := text.toList.length
  (scan text trigger).foldl
    (fun acc t =>
      (acc.1 ++ addMarkSteps t.start t.stop t.identifier acc.2,
       setRange t.start t.stop (some t.identifier) acc.2))
    (removeMarkSteps len marks, setRange 0 len none marks)

/-- The mark state after the `onUpdate` handler ran: the transaction is
dispatched only when it has at least one step
(`if (tr.steps.length > 0) editor.view.dispatch(tr)`). -/
def reconcileApply (trigger : Char) (text : String) (marks : MarkVec) : MarkVec :=
  if (reconcile trigger text marks).1 = [] then marks
  else (reconcile trigger text marks).2

example : reconcile '@' "@alice" (List.replicate 6 none) =
    ([MarkStep.addMark 0 6 "alice"], List.replicate 6 (some "alice")) := by decide

theorem markRunsGo_none :
    ∀ (l : MarkVec), (∀ x ∈ l, x = none) → ∀ i, markRunsGo i none l = [] := by
  intro l
  induction l with
  | nil => intro _ i; rfl
  | cons x rest ih =>
    intro h i
    have hx : x = none := h x (by simp)
    subst hx
    rw [markRunsGo]
    simpa using ih (fun y hy => h y (by simp [hy])) (i + 1)

/-- C3 (code bug): with paragraph text `"@alice"` and the mark state the
first reconciliation converged to, the second reconciliation does not
produce zero operations: the clear-then-reapply transaction carries a
`RemoveMarkStep` for the existing mark followed by an `AddMarkStep`
putting it back, so `tr.steps.length > 0` and the transaction is
dispatched again, contrary to the claimed no-op second application. -/
theorem reconcile_second_run_dispatches :
    (reconcile '@' "@alice" (reconcileApply '@' "@alice" (List.replicate 6 none))).1 =
      [MarkStep.removeMark 0 6 "alice", MarkStep.addMark 0 6 "alice"] ∧
    (reconcile '@' "@alice" (reconcileApply '@' "@alice" (List.replicate 6 none))).1 ≠
      [] := by
  decide

/-- C6: when the scanner finds no tokens and no marks of the kind exist
in the paragraph, the transaction has no steps, so nothing is dispatched
and the paragraph's mark state is untouched. -/
theorem reconcile_empty_noop (trigger : Char) (text : String) (marks : MarkVec)
    (hmarks : ∀ x ∈ marks, x = none) (htok : scan text trigger = []) :
    (reconcile trigger text marks).1 = [] ∧
    reconcileApply trigger text marks = marks := by
  have hsteps : (reconcile trigger text marks).1 = [] := by
    simp only [reconcile, htok, List.foldl_nil, removeMarkSteps, List.map_eq_nil_iff]
    exact markRunsGo_none _
      (fun x hx => hmarks x ((List.take_prefix _ _).subset hx)) 0
  refine ⟨hsteps, ?_⟩
  unfold reconcileApply
  rw [if_pos hsteps]

/-- Witness for C6 on the paragraph `"hello"` with no marks. -/
theorem reconcile_empty_noop_witness :
    (reconcile '@' "hello" [none, none, none, none, none]).1 = [] ∧
    reconcileApply '@' "hello" [none, none, none, none, none] =
      [none, none, none, none, none] :=
  reconcile_empty_noop '@' "hello" [none, none, none, none, none]
    (by decide) (by decide)

/-! ## Suggestion controller

Data model and operations of `useMentions` (src/hooks/useMentions.ts);
`useHashtags` is the same controller verbatim with `HashtagData` in place
of `MentionData`.  React's `setMentionState(prev => ...)` updaters become
pure functions on `MentionState`.  Optional numeric configuration fields
are `Option Nat`; JavaScript's `x || default` treats `0` as falsy.
-/

/-- `MentionData` (src/types/mentions.ts); the loosely-typed `metadata`
bag is irrelevant to every claim and omitted. -/
structure MentionData where
  id : String
  name : String
  username : Option String
  avatar : Option String
deriving DecidableEq, Repr

/-- `MentionSuggestion`: a suggestion item with its `selected` flag. -/
structure MentionSuggestion where
  data : MentionData
  selected : Bool
deriving DecidableEq, Repr

/-- `MentionState` of the controller. -/
structure MentionState where
  isVisible : Bool
  query : String
  suggestions : List MentionSuggestion
  selectedIndex : Int
deriving DecidableEq, Repr

/-- `MentionConfig` (the fields the modelled operations read). -/
structure MentionConfig where
  trigger : String
  minCharacters : Option Nat
  maxSuggestions : Option Nat
  debounceDelay : Option Nat
  showOnEmpty : Option Bool
deriving DecidableEq, Repr

/-- `config.maxSuggestions || 10` (`0` and `undefined` are falsy). -/
def maxSuggestionsOrDefault (cfg : MentionConfig) : Nat :=
  match cfg.maxSuggestions with
  | none => 10
  | some n => if n = 0 then 10 else n

/-- `Math.min(prev.suggestions.length - 1, (config.maxSuggestions || 10) - 1)`
from `selectNext` / `selectPrevious` (computed over JavaScript numbers,
hence over `Int`: it is `-1` for an empty list). -/
def maxIndex (cfg : MentionConfig) (s : MentionState) : Int :=
  min ((s.suggestions.length : Int) - 1) ((maxSuggestionsOrDefault cfg : Int) - 1)

/-- `selectNext` (useMentions.ts lines 118-136). -/
def selectNext (cfg : MentionConfig) (s : MentionState) : MentionState :=
  let nextIndex : Int :=
    if s.selectedIndex < maxIndex cfg s then s.selectedIndex + 1 else 0
  { s with
    selectedIndex := nextIndex,
    suggestions := s.suggestions.mapIdx
      (fun index suggestion => { suggestion with selected := (index : Int) == nextIndex }) }

/-- `selectPrevious` (useMentions.ts lines 139-157). -/
def selectPrevious (cfg : MentionConfig) (s : MentionState) : MentionState :=
  let prevIndex : Int :=
    if s.selectedIndex > 0 then s.selectedIndex - 1 else maxIndex cfg s
  { s with
    selectedIndex := prevIndex,
    suggestions := s.suggestions.mapIdx
      (fun index suggestion => { suggestion with selected := (index : Int) == prevIndex }) }

/-- `selectSuggestion` (useMentions.ts lines 160-169). -/
def selectSuggestion (index : Int) (s : MentionState) : MentionState :=
  { s with
    selectedIndex := index,
    suggestions := s.suggestions.mapIdx
      (fun i suggestion => { suggestion with selected := (i : Int) == index }) }

/-- `hideSuggestions` (useMentions.ts lines 99-115), state part. -/
def hideSuggestions (s : MentionState) : MentionState :=
  { s with isVisible := false, query := "", suggestions := [], selectedIndex := 0 }

/-- The state update a successfully resolved (non-discarded) fetch applies
(useMentions.ts lines 45-56): items replaced wholesale, index 0 marked
selected, `selectedIndex` reset to 0. -/
def applyFetchResolution (datas : List MentionData) (s : MentionState) : MentionState :=
  { s with
    suggestions := datas.mapIdx (fun index data => { data := data, selected := index == 0 }),
    selectedIndex := 0 }

/-- An ArrowDown/ArrowUp keystroke, as routed by `handleKeyDown`. -/
inductive NavKey where
  | arrowDown
  | arrowUp
deriving DecidableEq, Repr

/-- Apply one navigation keystroke. -/
def navKeyApply (cfg : MentionConfig) (s : MentionState) : NavKey → MentionState
  | .arrowDown => selectNext cfg s
  | .arrowUp => selectPrevious cfg s

/-- A finite sequence of ArrowDown/ArrowUp keystrokes. -/
def navigate (cfg : MentionConfig) (keys : List NavKey) (s : MentionState) : MentionState :=
  keys.foldl (navKeyApply cfg) s

/-- The controller operations that rewrite the suggestion list. -/
inductive SuggestionOp where
  | fetchResolution (datas : List MentionData)
  | arrowDown
  | arrowUp
  | selectIndex (index : Int)
  | hide
deriving DecidableEq, Repr

/-- Apply one controller operation to the state. -/
def applyOp (cfg : MentionConfig) : SuggestionOp → MentionState → MentionState
  | .fetchResolution datas, s => applyFetchResolution datas s
  | .arrowDown, s => selectNext cfg s
  | .arrowUp, s => selectPrevious cfg s
  | .selectIndex index, s => selectSuggestion index s
  | .hide, s => hideSuggestions s

/-- Each suggestion's `selected` flag is set exactly when its index equals
`selectedIndex`. -/
def flagInvariant (s : MentionState) : Prop :=
  ∀ (i : Nat) (hi : i < s.suggestions.length),
    (s.suggestions.get ⟨i, hi⟩).selected = ((i : Int) == s.selectedIndex)

/-! ### Fetch lifecycle

`fetchSuggestions` (useMentions.ts lines 27-64, and verbatim in
`useHashtags`, lines 345-382) aborts the previous `AbortController`,
installs a fresh one in `abortControllerRef`, awaits the host function
and, at resolution time, discards the result when
`abortControllerRef.current.signal.aborted` holds — note: the signal of
whatever controller is in the ref at resolution time, not the one this
fetch installed.  Controllers are modelled by identifiers; `aborted` is
the set of identifiers whose `abort()` was called.  A rejection is caught
and logged only when it is an `Error` whose `name` is not `"AbortError"`;
the host's promise is never handed the signal, so an aborted fetch still
resolves eventually.
-/

/-- How the host's `fetchSuggestions(query)` promise settles. -/
inductive FetchOutcome where
  | ok (datas : List MentionData)
  | err (isError : Bool) (errName : String)
deriving DecidableEq, Repr

/-- The controller's fetch-related mutable context: the ref's current
controller, the aborted controllers, a fresh-identifier counter, the
suggestion state and the console error log. -/
structure FetchSystem where
  current : Option Nat
  aborted : List Nat
  nextId : Nat
  state : MentionState
  log : List String
deriving DecidableEq, Repr

/-- Entering `fetchSuggestions`: abort the previous controller, install a
fresh one. -/
def startFetch (sys : FetchSystem) : FetchSystem :=
  { sys with
    aborted := match sys.current with
      | some cid => cid :: sys.aborted
      | none => sys.aborted,
    current := some sys.nextId,
    nextId := sys.nextId + 1 }

/-- `abortControllerRef.current.signal.aborted`, read at resolution time.
(`current` is never `none` once a fetch has started.) -/
def currentAborted (sys : FetchSystem) : Bool :=
  match sys.current with
  | some cid => sys.aborted.contains cid
  | none => false

/-- A fetch's promise settles: on success the result is applied unless the
ref's current controller is aborted; on failure the exception is caught,
and logged only for an `Error` not named `"AbortError"`. -/
def resolveFetch (outcome : FetchOutcome) (sys : FetchSystem) : FetchSystem :=
  match outcome with
  | .ok datas =>
    if currentAborted sys then sys
    else { sys with state := applyFetchResolution datas sys.state }
  | .err isError errName =>
    { sys with
      log := sys.log ++
        (if isError && errName != "AbortError"
         then ["Error fetching mention suggestions:"] else []) }

/-- A fetch context before any fetch has run, with an empty visible
suggestion list. -/
def fetchSystemInit : FetchSystem :=
  { current := none, aborted := [], nextId := 0,
    state := { isVisible := true, query := "ab", suggestions := [], selectedIndex := 0 },
    log := [] }

/-- Concrete suggestion returned for the query `"ab"`. -/
def mentionAb : MentionData :=
  { id := "1", name := "ab", username := none, avatar := none }

/-- Concrete suggestion returned for the query `"abc"`. -/
def mentionAbc : MentionData :=
  { id := "2", name := "abc", username := none, avatar := none }

/-! ### Controller claim theorems -/

/-- C1 (code bug): the fetch for `"ab"` is superseded by the fetch for
`"abc"` (its controller is aborted and replaced); `"abc"` resolves and
updates state; then the superseded `"ab"` fetch resolves — and its result
is still written, because the staleness check consults
`abortControllerRef.current.signal.aborted`, the signal of the newest
controller (never aborted), not the signal of the controller the `"ab"`
fetch installed.  The final state holds the `"ab"` result even though the
`"abc"` result had been applied. -/
theorem stale_fetch_result_applied :
    ((resolveFetch (FetchOutcome.ok [mentionAbc])
        (startFetch (startFetch fetchSystemInit))).state.suggestions.map
          MentionSuggestion.data = [mentionAbc]) ∧
    ((resolveFetch (FetchOutcome.ok [mentionAb])
        (resolveFetch (FetchOutcome.ok [mentionAbc])
          (startFetch (startFetch fetchSystemInit)))).state.suggestions.map
            MentionSuggestion.data = [mentionAb]) ∧
    mentionAb ≠ mentionAbc := by
  decide

theorem maxSuggestionsOrDefault_pos (cfg : MentionConfig) :
    1 ≤ maxSuggestionsOrDefault cfg := by
  unfold maxSuggestionsOrDefault
  cases h : cfg.maxSuggestions with
  | none => decide
  | some n =>
    show 1 ≤ if n = 0 then 10 else n
    split <;> omega

theorem maxIndex_nonneg (cfg : MentionConfig) (s : MentionState)
    (hne : s.suggestions ≠ []) : 0 ≤ maxIndex cfg s := by
  have h1 : 1 ≤ s.suggestions.length := List.length_pos.mpr hne
  have h2 := maxSuggestionsOrDefault_pos cfg
  unfold maxIndex
  apply le_min <;> omega

theorem selectNext_suggestions_length (cfg : MentionConfig) (s : MentionState) :
    (selectNext cfg s).suggestions.length = s.suggestions.length := by
  simp [selectNext]

theorem selectPrevious_suggestions_length (cfg : MentionConfig) (s : MentionState) :
    (selectPrevious cfg s).suggestions.length = s.suggestions.length := by
  simp [selectPrevious]

theorem maxIndex_congr (cfg : MentionConfig) (s s' : MentionState)
    (h : s'.suggestions.length = s.suggestions.length) :
    maxIndex cfg s' = maxIndex cfg s := by
  unfold maxIndex
  rw [h]

theorem navKeyApply_invariant (cfg : MentionConfig) (s : MentionState) (k : NavKey)
    (hne : s.suggestions ≠ []) (h0 : 0 ≤ s.selectedIndex)
    (hmax : s.selectedIndex ≤ maxIndex cfg s) :
    (navKeyApply cfg s k).suggestions ≠ [] ∧
    0 ≤ (navKeyApply cfg s k).selectedIndex ∧
    (navKeyApply cfg s k).selectedIndex ≤ maxIndex cfg (navKeyApply cfg s k) := by
  have hmi := maxIndex_nonneg cfg s hne
  cases k with
  | arrowDown =>
    simp only [navKeyApply]
    have hml := maxIndex_congr cfg s (selectNext cfg s)
      (selectNext_suggestions_length cfg s)
    have hlen := selectNext_suggestions_length cfg s
    refine ⟨?_, ?_, ?_⟩
    · intro hnil
      rw [hnil] at hlen
      exact hne (List.eq_nil_of_length_eq_zero hlen.symm)
    · show (0 : Int) ≤ (selectNext cfg s).selectedIndex
      simp only [selectNext]
      split <;> omega
    · rw [hml]
      show (selectNext cfg s).selectedIndex ≤ maxIndex cfg s
      simp only [selectNext]
      split <;> omega
  | arrowUp =>
    simp only [navKeyApply]
    have hml := maxIndex_congr cfg s (selectPrevious cfg s)
      (selectPrevious_suggestions_length cfg s)
    have hlen := selectPrevious_suggestions_length cfg s
    refine ⟨?_, ?_, ?_⟩
    · intro hnil
      rw [hnil] at hlen
      exact hne (List.eq_nil_of_length_eq_zero hlen.symm)
    · show (0 : Int) ≤ (selectPrevious cfg s).selectedIndex
      simp only [selectPrevious]
      split <;> omega
    · rw [hml]
      show (selectPrevious cfg s).selectedIndex ≤ maxIndex cfg s
      simp only [selectPrevious]
      split <;> omega

theorem navigate_invariant (cfg : MentionConfig) :
    ∀ (keys : List NavKey) (s : MentionState),
      s.suggestions ≠ [] → 0 ≤ s.selectedIndex → s.selectedIndex ≤ maxIndex cfg s →
      (navigate cfg keys s).suggestions ≠ [] ∧
      0 ≤ (navigate cfg keys s).selectedIndex ∧
      (navigate cfg keys s).selectedIndex ≤ maxIndex cfg (navigate cfg keys s) := by
  intro keys
  induction keys with
  | nil => intro s h1 h2 h3; exact ⟨h1, h2, h3⟩
  | cons k ks ih =>
    intro s h1 h2 h3
    have hstep := navKeyApply_invariant cfg s k h1 h2 h3
    exact ih (navKeyApply cfg s k) hstep.1 hstep.2.1 hstep.2.2

/-- C4: from any state with a non-empty suggestion list and an in-range
`selectedIndex`, every finite sequence of ArrowDown/ArrowUp keystrokes
keeps `selectedIndex` inside `[0, min(items.length, maxSuggestions) - 1]`,
ArrowDown wraps from the last index to 0, and ArrowUp wraps from 0 to the
last index. -/
theorem selectedIndex_invariant (cfg : MentionConfig) (s : MentionState)
    (keys : List NavKey) (hne : s.suggestions ≠ []) (h0 : 0 ≤ s.selectedIndex)
    (hmax : s.selectedIndex ≤ maxIndex cfg s) :
    (0 ≤ (navigate cfg keys s).selectedIndex ∧
      (navigate cfg keys s).selectedIndex ≤ maxIndex cfg (navigate cfg keys s)) ∧
    (s.selectedIndex = maxIndex cfg s → (selectNext cfg s).selectedIndex = 0) ∧
    (s.selectedIndex = 0 → (selectPrevious cfg s).selectedIndex = maxIndex cfg s) := by
  refine ⟨?_, ?_, ?_⟩
  · have h := navigate_invariant cfg keys s hne h0 hmax
    exact ⟨h.2.1, h.2.2⟩
  · intro heq
    show (if s.selectedIndex < maxIndex cfg s then s.selectedIndex + 1 else 0) = 0
    rw [if_neg (by omega)]
  · intro heq
    show (if s.selectedIndex > 0 then s.selectedIndex - 1 else maxIndex cfg s) =
      maxIndex cfg s
    rw [if_neg (by omega)]

/-- Witness for C4: two items, three keystrokes from index 0. -/
theorem selectedIndex_invariant_witness :
    (0 ≤ (navigate
        { trigger := "@", minCharacters := none, maxSuggestions := none,
          debounceDelay := none, showOnEmpty := none }
        [NavKey.arrowDown, NavKey.arrowDown, NavKey.arrowUp]
        { isVisible := true, query := "a",
          suggestions := [{ data := mentionAb, selected := true },
                          { data := mentionAbc, selected := false }],
          selectedIndex := 0 }).selectedIndex) := by
  have h := selectedIndex_invariant
    { trigger := "@", minCharacters := none, maxSuggestions := none,
      debounceDelay := none, showOnEmpty := none }
    { isVisible := true, query := "a",
      suggestions := [{ data := mentionAb, selected := true },
                      { data := mentionAbc, selected := false }],
      selectedIndex := 0 }
    [NavKey.arrowDown, NavKey.arrowDown, NavKey.arrowUp]
    (by decide) (by decide) (by decide)
  exact h.1.1

/-- C7 counterexample: a rejection whose value is not an `Error` instance
is caught but produces no log entry (`error instanceof Error` fails), so
the claim that every host failure is logged is false as stated.  The same
holds for an `Error` named `"AbortError"`. -/
theorem fetch_failure_unlogged_counterexample :
    ¬ (∀ (isError : Bool) (errName : String) (sys : FetchSystem),
        (resolveFetch (FetchOutcome.err isError errName) sys).log ≠ sys.log) := by
  intro h
  exact h false "boom" fetchSystemInit (by decide)

/-- C7 (amended): when the host's suggestion function rejects or throws,
the failure is caught inside the controller (the model is total: no
exception escapes), the suggestion state — visible flag, query, items and
selected index — is left exactly as before the fetch (in particular the
controller does not transition to Showing), and the failure is logged
exactly when it is an `Error` instance whose name is not `"AbortError"`. -/
theorem fetch_failure_state_preserved (isError : Bool) (errName : String)
    (sys : FetchSystem) :
    (resolveFetch (FetchOutcome.err isError errName) sys).state = sys.state ∧
    ((resolveFetch (FetchOutcome.err isError errName) sys).log = sys.log ↔
      ¬ (isError = true ∧ errName ≠ "AbortError")) := by
  constructor
  · rfl
  · show sys.log ++
        (if isError && errName != "AbortError"
         then ["Error fetching mention suggestions:"] else []) = sys.log ↔ _
    by_cases h1 : isError = true
    · by_cases h2 : errName = "AbortError"
      · simp [h1, h2]
      · have hne : (errName != "AbortError") = true := by
          simpa using h2
        simp [h1, hne, h2]
    · have h1f : isError = false := by
        cases isError
        · rfl
        · exact absurd rfl h1
      simp [h1f]

/-! ### Selected-flag coherence (C8) -/

theorem beq_natCast_eq (i : Nat) (k : Nat) : ((i : Int) == (k : Int)) = (i == k) := by
  refine Bool.eq_iff_iff.mpr ?_
  simp only [beq_iff_eq]
  omega

/-- C8: after every controller operation — fetch resolution, selectNext,
selectPrevious, selectSuggestion, hideSuggestions — each suggestion's
`selected` flag holds exactly when its index equals `selectedIndex`, and
fetch resolution resets `selectedIndex` to 0 (marking index 0 selected). -/
theorem selected_flag_coherent (cfg : MentionConfig) (op : SuggestionOp)
    (s : MentionState) :
    flagInvariant (applyOp cfg op s) ∧
    (∀ datas, (applyOp cfg (SuggestionOp.fetchResolution datas) s).selectedIndex = 0) := by
  refine ⟨?_, fun _ => rfl⟩
  cases op with
  | fetchResolution datas =>
    intro i hi
    rw [List.get_eq_getElem]
    show ((applyFetchResolution datas s).suggestions[i]).selected = _
    simp only [applyFetchResolution] at hi ⊢
    rw [List.getElem_mapIdx]
    exact (beq_natCast_eq i 0).symm
  | arrowDown =>
    intro i hi
    rw [List.get_eq_getElem]
    show ((selectNext cfg s).suggestions[i]).selected = _
    simp only [selectNext] at hi ⊢
    rw [List.getElem_mapIdx]
    rfl
  | arrowUp =>
    intro i hi
    rw [List.get_eq_getElem]
    show ((selectPrevious cfg s).suggestions[i]).selected = _
    simp only [selectPrevious] at hi ⊢
    rw [List.getElem_mapIdx]
    rfl
  | selectIndex index =>
    intro i hi
    rw [List.get_eq_getElem]
    show ((selectSuggestion index s).suggestions[i]).selected = _
    simp only [selectSuggestion] at hi ⊢
    rw [List.getElem_mapIdx]
    rfl
  | hide =>
    intro i hi
    simp only [applyOp, hideSuggestions, List.length_nil] at hi
    omega

/-- Witness for C8: an ArrowDown step on a concrete two-item state. -/
theorem selected_flag_coherent_witness :
    flagInvariant (applyOp
      { trigger := "@", minCharacters := none, maxSuggestions := none,
        debounceDelay := none, showOnEmpty := none }
      SuggestionOp.arrowDown
      { isVisible := true, query := "a",
        suggestions := [{ data := mentionAb, selected := true },
                        { data := mentionAbc, selected := false }],
        selectedIndex := 0 }) :=
  (selected_flag_coherent
    { trigger := "@", minCharacters := none, maxSuggestions := none,
      debounceDelay := none, showOnEmpty := none }
    SuggestionOp.arrowDown
    { isVisible := true, query := "a",
      suggestions := [{ data := mentionAb, selected := true },
                      { data := mentionAbc, selected := false }],
      selectedIndex := 0 }).1

/-! ## Suggestion overlay

The `MentionSuggestions` dropdown (WInkEditor.tsx lines 554-655): its
keyup/click handler normalizes whatever `getMentionSuggestions(q)`
returned (`const norm = raw.map(v => typeof v === "string" ? { handle: v }
: v)`), stores `norm.slice(0, 8)` as the items, and the component renders
nothing when `!open || !coords || items.length === 0`.
-/

/-- A value of the host-supplied `getMentionSuggestions` result array:
either a bare handle string or an object. -/
inductive RawSuggestion where
  | str (handle : String)
  | obj (handle : String) (label : Option String) (avatarUrl : Option String)
deriving DecidableEq, Repr

/-- A normalized overlay item `{ handle, label?, avatarUrl? }`. -/
structure OverlayItem where
  handle : String
  label : Option String
  avatarUrl : Option String
deriving DecidableEq, Repr

/-- `typeof v === "string" ? { handle: v } : v`. -/
def normalizeSuggestion : RawSuggestion → OverlayItem
  | .str handle => { handle := handle, label := none, avatarUrl := none }
  | .obj handle label avatarUrl => { handle := handle, label := label, avatarUrl := avatarUrl }

/-- The items the handler stores: `raw.map(normalize).slice(0, 8)`. -/
def overlayItems (raw : List RawSuggestion) : List OverlayItem :=
  (raw.map normalizeSuggestion).take 8

/-- The component's render result: `none` models `return null`
(`if (!open || !coords || items.length === 0) return null`), otherwise
the rendered item list. -/
def renderOverlay (isOpen : Bool) (coords : Option (Int × Int))
    (items : List OverlayItem) : Option (List OverlayItem) :=
  if !isOpen || coords.isNone || items.length == 0 then none else some items

/-- C9: for every host-returned suggestion array, the overlay stores (and
hence renders) at most the first 8 normalized items — a prefix of the
normalized list of length at most 8, independent of any `maxSuggestions`
configuration, which the component does not receive — and when the
truncated item list is empty it renders nothing. -/
theorem overlay_renders_at_most_eight (raw : List RawSuggestion) :
    (overlayItems raw).length ≤ 8 ∧
    overlayItems raw <+: raw.map normalizeSuggestion ∧
    (∀ (isOpen : Bool) (coords : Option (Int × Int)),
      overlayItems raw = [] → renderOverlay isOpen coords (overlayItems raw) = none) := by
  refine ⟨?_, List.take_prefix 8 _, ?_⟩
  · unfold overlayItems
    rw [List.length_take]
    exact min_le_left _ _
  · intro openFlag coords hempty
    rw [hempty]
    unfold renderOverlay
    simp

/-- Witness for C9: nine raw handles truncate to eight items, and an empty
result renders nothing. -/
theorem overlay_renders_at_most_eight_witness :
    (overlayItems [RawSuggestion.str "a", RawSuggestion.str "b", RawSuggestion.str "c",
      RawSuggestion.str "d", RawSuggestion.str "e", RawSuggestion.str "f",
      RawSuggestion.str "g", RawSuggestion.str "h", RawSuggestion.str "i"]).length ≤ 8 ∧
    renderOverlay true (some (0, 0)) (overlayItems []) = none :=
  ⟨(overlay_renders_at_most_eight
      [RawSuggestion.str "a", RawSuggestion.str "b", RawSuggestion.str "c",
       RawSuggestion.str "d", RawSuggestion.str "e", RawSuggestion.str "f",
       RawSuggestion.str "g", RawSuggestion.str "h", RawSuggestion.str "i"]).1,
   (overlay_renders_at_most_eight []).2.2 true (some (0, 0)) (by decide)⟩

/-! ## Plugin manager

`createPluginManager` (src/utils/plugins.ts lines 15-118): an insertion-
ordered map of plugins keyed by id, a set of enabled ids, and the
lifecycle event callbacks.  `register` refuses an already-registered id
with only a console warning; otherwise it stores the plugin, fires
`onRegister` and — unless `plugin.enabled === false` — enables it, which
fires `onEnable`.
-/

/-- A registered plugin (`WInkPlugin`, src/types/plugins.ts); the
function-valued fields (`init`, `destroy`, ...) play no part in the
registration claims. -/
structure WInkPlugin where
  id : String
  name : String
  enabled : Option Bool
deriving DecidableEq, Repr

/-- A fired lifecycle event. -/
inductive PluginEvent where
  | onRegister (id : String)
  | onEnable (id : String)
  | onDisable (id : String)
  | onUnregister (id : String)
deriving DecidableEq, Repr

/-- The manager's state: the `plugins` map (insertion order), the
`enabledPlugins` set, and the lifecycle events fired so far. -/
structure PluginManagerState where
  plugins : List (String × WInkPlugin)
  enabledPlugins : List String
  firedEvents : List PluginEvent
deriving DecidableEq, Repr

/-- `plugins.has(id)`. -/
def hasPlugin (st : PluginManagerState) (id : String) : Bool :=
  st.plugins.any (fun p => p.1 == id)

/-- `manager.enable(pluginId)`: warn-and-return when the id is unknown or
already enabled, otherwise add it to the enabled set and fire `onEnable`. -/
def enablePlugin (id : String) (st : PluginManagerState) : PluginManagerState :=
  if hasPlugin st id = false then st
  else if st.enabledPlugins.contains id then st
  else
    { st with
      enabledPlugins := st.enabledPlugins ++ [id],
      firedEvents := st.firedEvents ++ [PluginEvent.onEnable id] }

/-- `manager.register(plugin)`: an already-registered id is refused with a
console warning and an early return; otherwise the plugin is stored,
`onRegister` fires, and the plugin is auto-enabled unless
`plugin.enabled === false`. -/
def registerPlugin (p : WInkPlugin) (st : PluginManagerState) : PluginManagerState :=
  if hasPlugin st p.id then st
  else
    let st1 :=
      { st with
        plugins := st.plugins ++ [(p.id, p)],
        firedEvents := st.firedEvents ++ [PluginEvent.onRegister p.id] }
    if p.enabled ≠ some false then enablePlugin p.id st1 else st1

/-- C10: registering a plugin whose id is already registered leaves the
manager's entire state unchanged — the stored plugin for that id is not
overwritten, the enabled set is untouched, and no register or enable
lifecycle event fires. -/
theorem register_duplicate_noop (st : PluginManagerState) (p : WInkPlugin)
    (h : hasPlugin st p.id = true) : registerPlugin p st = st := by
  unfold registerPlugin
  rw [if_pos h]

/-- Witness for C10 on a one-plugin manager. -/
theorem register_duplicate_noop_witness :
    registerPlugin { id := "img", name := "Image 2", enabled := none }
      { plugins := [("img", { id := "img", name := "Image", enabled := none })],
        enabledPlugins := ["img"],
        firedEvents := [PluginEvent.onRegister "img", PluginEvent.onEnable "img"] } =
      { plugins := [("img", { id := "img", name := "Image", enabled := none })],
        enabledPlugins := ["img"],
        firedEvents := [PluginEvent.onRegister "img", PluginEvent.onEnable "img"] } :=
  register_duplicate_noop
    { plugins := [("img", { id := "img", name := "Image", enabled := none })],
      enabledPlugins := ["img"],
      firedEvents := [PluginEvent.onRegister "img", PluginEvent.onEnable "img"] }
    { id := "img", name := "Image 2", enabled := none }
    (by decide)

end WInk
